import Mathlib

/-!
Verification development for the ingestion-and-reconciliation pipeline of
`app_turnos_cloud.py` (appointment-dashboard application).

The Python source is shallowly embedded: each relevant function of the
source is translated into an executable Lean definition, machine integers
are `Nat` with explicit reduction modulo 2^32 where the source relies on
32-bit words, and fallible steps are `Option`/`Except` values.  Library
behaviour the source calls into (SHA-1 from `hashlib`, the day-first
coercing timestamp parser and the Buenos Aires timezone rules from
`pandas`, CSV splitting) is modelled directly, with the modelled scope
stated in the corresponding doc comment.
-/

set_option maxRecDepth 100000

/-! ## 32-bit word arithmetic and SHA-1 (model of `hashlib.sha1(...).hexdigest()`) -/

/-- Reduction modulo 2^32, the word size SHA-1 works with. -/
def w32 (x : Nat) : Nat := x % 4294967296

/-- Rotate a 32-bit word left by `n` bits (for `x < 2^32`, `n ≤ 32`). -/
def rotl32 (n x : Nat) : Nat := (x % 2 ^ (32 - n)) * 2 ^ n + x / 2 ^ (32 - n)

/-- Round function of SHA-1: selection, parity or majority by round index. -/
def sha1F (t b c d : Nat) : Nat :=
  if t < 20 then (b &&& c) ||| ((4294967295 - b) &&& d)
  else if t < 40 then b ^^^ c ^^^ d
  else if t < 60 then (b &&& c) ||| (b &&& d) ||| (c &&& d)
  else b ^^^ c ^^^ d

/-- Round constant of SHA-1 by round index. -/
def sha1K (t : Nat) : Nat :=
  if t < 20 then 1518500249
  else if t < 40 then 1859775393
  else if t < 60 then 2400959708
  else 3395469782

/-- Big-endian byte rendering of `n` on `k` bytes. -/
def beBytes (k n : Nat) : List Nat :=
  (List.range k).map (fun i => n / 2 ^ (8 * (k - 1 - i)) % 256)

/-- Padding step of SHA-1: append `0x80`, zeros up to 56 mod 64, then the
bit length on 8 big-endian bytes. -/
def sha1Pad (msg : List Nat) : List Nat :=
  msg ++ [128] ++ List.replicate ((119 - msg.length % 64) % 64) 0
      ++ beBytes 8 (msg.length * 8)

/-- Splitting into 64-byte blocks, structurally recursive on a fuel bound. -/
def chunk64Fuel : Nat → List Nat → List (List Nat)
  | 0, _ => []
  | _, [] => []
  | fuel + 1, l => l.take 64 :: chunk64Fuel fuel (l.drop 64)

/-- Splitting of the padded message into 64-byte blocks. -/
def chunk64 (l : List Nat) : List (List Nat) := chunk64Fuel l.length l

/-- Packing of a 64-byte block into its 16 big-endian 32-bit words. -/
def toWords (block : List Nat) : List Nat :=
  (List.range 16).map fun i =>
    block.getD (4 * i) 0 * 16777216 + block.getD (4 * i + 1) 0 * 65536 +
    block.getD (4 * i + 2) 0 * 256 + block.getD (4 * i + 3) 0

/-- Message-schedule extension of SHA-1: append `k` further words, each the
left rotation by one of the XOR of the words 3, 8, 14 and 16 positions back. -/
def sha1Extend (w : List Nat) : Nat → List Nat
  | 0 => w
  | k + 1 =>
      sha1Extend
        (w ++ [rotl32 1 (w.getD (w.length - 3) 0 ^^^ w.getD (w.length - 8) 0 ^^^
                         w.getD (w.length - 14) 0 ^^^ w.getD (w.length - 16) 0)]) k

/-- Single compression round of SHA-1 on the five-word state. -/
def sha1Round (W : List Nat) (st : Nat × Nat × Nat × Nat × Nat) (t : Nat) :
    Nat × Nat × Nat × Nat × Nat :=
  let (a, b, c, d, e) := st
  (w32 (rotl32 5 a + sha1F t b c d + e + sha1K t + W.getD t 0),
   a, rotl32 30 b, c, d)

/-- Compression of one 64-byte block into the running five-word state. -/
def sha1Block (h : Nat × Nat × Nat × Nat × Nat) (block : List Nat) :
    Nat × Nat × Nat × Nat × Nat :=
  let W := sha1Extend (toWords block) 64
  let (a, b, c, d, e) := (List.range 80).foldl (sha1Round W) h
  let (h0, h1, h2, h3, h4) := h
  (w32 (h0 + a), w32 (h1 + b), w32 (h2 + c), w32 (h3 + d), w32 (h4 + e))

/-- SHA-1 digest of a byte list, as the list of its 20 digest bytes. -/
def sha1Bytes (msg : List Nat) : List Nat :=
  let (h0, h1, h2, h3, h4) :=
    (chunk64 (sha1Pad msg)).foldl sha1Block
      (1732584193, 4023233417, 2562383102, 271733878, 3285377520)
  beBytes 4 h0 ++ beBytes 4 h1 ++ beBytes 4 h2 ++ beBytes 4 h3 ++ beBytes 4 h4

/-- Lowercase hexadecimal digit for a value below 16. -/
def hexDigit (n : Nat) : Char := Char.ofNat (if n < 10 then 48 + n else 87 + n)

/-- Lowercase two-digit hexadecimal rendering of one byte. -/
def hexByte (n : Nat) : List Char := [hexDigit (n / 16), hexDigit (n % 16)]

/-- UTF-8 encoding of one character as its byte values. -/
def utf8Char (c : Char) : List Nat :=
  let n := c.toNat
  if n < 128 then [n]
  else if n < 2048 then [192 + n / 64, 128 + n % 64]
  else if n < 65536 then [224 + n / 4096, 128 + n / 64 % 64, 128 + n % 64]
  else [240 + n / 262144, 128 + n / 4096 % 64, 128 + n / 64 % 64, 128 + n % 64]

/-- UTF-8 encoding of a string as its byte values. -/
def utf8Bytes (s : String) : List Nat := (s.data.map utf8Char).flatten

/-- Model of `hashlib.sha1(x.encode("utf-8")).hexdigest()`: SHA-1 of the
UTF-8 encoding, rendered as 40 lowercase hex characters. -/
def sha1hex (s : String) : String :=
  String.mk ((sha1Bytes (utf8Bytes s)).map hexByte).flatten

/-- Sanity check of the SHA-1 embedding against the standard test vector. -/
theorem sha1hex_abc : sha1hex "abc" = "a9993e364706816aba3e25717850c26c9cd0d89d" := by
  decide

/-! ## Cells and raw rows -/

/-- Raw scalar cell of a parsed table: a string value or a missing value
(`NaN`). -/
abbrev Cell := Option String

/-- Model of `Series.astype(str)` on a string-or-missing cell: a missing
value (pandas `NaN`) renders as the string `"nan"`.  The `.fillna("")`
the source chains after `astype(str)` acts on the already-stringified
column, which no longer holds any missing value, and is the identity. -/
def strCell : Cell → String
  | none => "nan"
  | some s => s

/-- Validated row of an uploaded file, one cell per required input column
(`Fecha`, `Hora`, `Tipo Turno`, `Paciente`, `DNI`, `Teléfonos`, `Mail`,
`Cobertura`, `Ubicación`, `Efector`, `Procedimiento`, `Domicilio`,
`Localidad`, `Edad`, `Estado`, `Atendido`, in field order). -/
structure RawRow where
  fecha : Cell
  hora : Cell
  tipoTurno : Cell
  paciente : Cell
  dni : Cell
  telefonos : Cell
  mail : Cell
  cobertura : Cell
  ubicacion : Cell
  efector : Cell
  procedimiento : Cell
  domicilio : Cell
  localidad : Cell
  edad : Cell
  estado : Cell
  atendido : Cell
deriving DecidableEq, Repr

/-- Concatenation the source hashes: the five identity fields rendered by
`astype(str)`, joined by the literal `|` separator. -/
def rowKey (r : RawRow) : String :=
  strCell r.dni ++ "|" ++ strCell r.fecha ++ "|" ++ strCell r.hora ++ "|" ++
  strCell r.ubicacion ++ "|" ++ strCell r.procedimiento

/-- Model of the `row_id` column: SHA-1 of the UTF-8 encoded key, as
lowercase hex. -/
def rowId (r : RawRow) : String := sha1hex (rowKey r)

/-! ## Calendar arithmetic (days-from-civil and back) -/

/-- Gregorian leap-year test. -/
def isLeap (y : Nat) : Bool := (y % 4 == 0 && y % 100 != 0) || y % 400 == 0

/-- Day count of a month in the Gregorian calendar. -/
def daysInMonth (y m : Nat) : Nat :=
  if m = 2 then (if isLeap y then 29 else 28)
  else if m = 4 ∨ m = 6 ∨ m = 9 ∨ m = 11 then 30
  else 31

/-- Days elapsed since 1970-01-01 for a Gregorian date with `y ≥ 1`. -/
def civilDays (y m d : Nat) : Int :=
  let y' := if m ≤ 2 then y - 1 else y
  let era := y' / 400
  let yoe := y' % 400
  let mp := if m > 2 then m - 3 else m + 9
  let doy := (153 * mp + 2) / 5 + d - 1
  let doe := yoe * 365 + yoe / 4 - yoe / 100 + doy
  (era * 146097 + doe : Int) - 719468

/-- Gregorian date of a day count relative to 1970-01-01 (valid for dates
from year 1 on). -/
def civilFromDays (z : Int) : Nat × Nat × Nat :=
  let g := (z + 719468).toNat
  let era := g / 146097
  let doe := g % 146097
  let yoe := (doe - doe / 1460 + doe / 36524 - doe / 146096) / 365
  let y' := yoe + era * 400
  let doy := doe - (365 * yoe + yoe / 4 - yoe / 100)
  let mp := (5 * doy + 2) / 153
  let d := doy - (153 * mp + 2) / 5 + 1
  let m := if mp < 10 then mp + 3 else mp - 9
  (if m ≤ 2 then y' + 1 else y', m, d)

/-- Naive (timezone-free) wall-clock timestamp at minute precision, the
result of parsing one `Fecha` + `Hora` pair. -/
structure NaiveDT where
  year : Nat
  month : Nat
  day : Nat
  hour : Nat
  minute : Nat
deriving DecidableEq, Repr

/-- Minutes elapsed since 1970-01-01 00:00 for a naive timestamp. -/
def toEpochMin (n : NaiveDT) : Int :=
  civilDays n.year n.month n.day * 1440 + n.hour * 60 + n.minute

/-- Two-digit zero-padded decimal rendering. -/
def pad2 (n : Nat) : String := if n < 10 then "0" ++ toString n else toString n

/-- Four-digit zero-padded decimal rendering. -/
def pad4 (n : Nat) : String :=
  if n < 10 then "000" ++ toString n
  else if n < 100 then "00" ++ toString n
  else if n < 1000 then "0" ++ toString n
  else toString n

/-- Rendering of a UTC instant (epoch minutes) in the source's `strftime`
format `%Y-%m-%dT%H:%M:%S.%fZ`: fixed six-digit microseconds and a literal
`Z` marker. -/
def isoUtcOfMin (u : Int) : String :=
  let c := civilFromDays (u.ediv 1440)
  let mday := (u.emod 1440).toNat
  pad4 c.1 ++ "-" ++ pad2 c.2.1 ++ "-" ++ pad2 c.2.2 ++ "T" ++
  pad2 (mday / 60) ++ ":" ++ pad2 (mday % 60) ++ ":00.000000Z"

/-! ## Day-first parsing and timezone normalization -/

/-- Splitting of a character list at every occurrence of `c`, with the
accumulator carrying the current field reversed. -/
def splitCharAux (c : Char) : List Char → List Char → List (List Char)
  | [], acc => [acc.reverse]
  | x :: xs, acc =>
      if x = c then acc.reverse :: splitCharAux c xs []
      else splitCharAux c xs (x :: acc)

/-- Splitting of a character list at every occurrence of `c`. -/
def splitChar (c : Char) (l : List Char) : List (List Char) := splitCharAux c l []

/-- Removal of leading and trailing whitespace, the `str.strip()` step. -/
def trimChars (l : List Char) : List Char :=
  ((l.dropWhile Char.isWhitespace).reverse.dropWhile Char.isWhitespace).reverse

/-- Decimal reading of a nonempty all-digit character list. -/
def parseNatStrict (l : List Char) : Option Nat :=
  if !l.isEmpty && l.all Char.isDigit then
    some (l.foldl (fun a c => a * 10 + (c.toNat - 48)) 0)
  else none

/-- Modelled from the library: `pandas.to_datetime(s, dayfirst=True,
errors="coerce")` restricted to the locale shape `D/M/YYYY H:MM` of the
`Fecha` and `Hora` columns.  Day comes first (day/month/year), out-of-range
components (such as `31/02/2024` or `99:99`) and malformed text coerce to
`NaT` (`none`), and the pandas year bounds 1678-2261 apply. -/
def parseDayFirst (l : List Char) : Option NaiveDT :=
  match splitChar ' ' l with
  | [ds, ts] =>
    match splitChar '/' ds, splitChar ':' ts with
    | [dd, mm, yy], [hh, mi] =>
      match parseNatStrict dd, parseNatStrict mm, parseNatStrict yy,
            parseNatStrict hh, parseNatStrict mi with
      | some d, some m, some y, some h, some mn =>
        if 1678 ≤ y ∧ y ≤ 2261 ∧ 1 ≤ m ∧ m ≤ 12 ∧ 1 ≤ d ∧ d ≤ daysInMonth y m ∧
           h < 24 ∧ mn < 60
        then some ⟨y, m, d, h, mn⟩ else none
      | _, _, _, _, _ => none
    | _, _ => none
  | _ => none

/-- Modelled from the library: the tz database rules for
`America/Argentina/Buenos_Aires` consulted by
`tz_localize("America/Argentina/Buenos_Aires", nonexistent="NaT",
ambiguous="NaT")` followed by `tz_convert("UTC")`.  Standard offset UTC-3;
daylight saving at UTC-2 from 2007-12-30 00:00 to 2008-03-16 00:00 wall
clock and again from 2008-10-19 00:00 to 2009-03-15 00:00; the one-hour
spring-forward gaps and fall-back folds at those transitions resolve to
`NaT` (`none`).  Offsets in force before 1994 are not modelled. -/
def argLocalizeUtcMin (n : NaiveDT) : Option Int :=
  let w := toEpochMin n
  let g1 := toEpochMin ⟨2007, 12, 30, 0, 0⟩
  let e1 := toEpochMin ⟨2008, 3, 16, 0, 0⟩
  let g2 := toEpochMin ⟨2008, 10, 19, 0, 0⟩
  let e2 := toEpochMin ⟨2009, 3, 15, 0, 0⟩
  if (g1 ≤ w ∧ w < g1 + 60) ∨ (g2 ≤ w ∧ w < g2 + 60) then none
  else if (e1 - 60 ≤ w ∧ w < e1) ∨ (e2 - 60 ≤ w ∧ w < e2) then none
  else if (g1 ≤ w ∧ w < e1) ∨ (g2 ≤ w ∧ w < e2) then some (w + 120)
  else some (w + 180)

/-- Model of `to_iso_utc` on the `fecha_hora` column values: `NaT` maps to
`None`, an aware instant is converted to UTC and rendered with
`%Y-%m-%dT%H:%M:%S.%fZ`. -/
def to_iso_utc (ts : Option Int) : Option String := ts.map isoUtcOfMin

/-- Composed text handed to the datetime parser:
`Fecha.astype(str).str.strip() + " " + Hora.astype(str).str.strip()`. -/
def composedDT (r : RawRow) : List Char :=
  trimChars (strCell r.fecha).data ++ ' ' :: trimChars (strCell r.hora).data

/-- Raw `fecha_hora` column value of a row before serialization: day-first
parse, then localization to Buenos Aires wall-clock time and conversion to
UTC; any failure along the way is `NaT` (`none`). -/
def fhRaw (r : RawRow) : Option Int :=
  (parseDayFirst (composedDT r)).bind argLocalizeUtcMin

/-- Serialized `fecha_hora` value of a row as it enters the upsert
payload. -/
def fechaHora (r : RawRow) : Option String := to_iso_utc (fhRaw r)


/-! ## Canonical records and the canonicalizer -/

/-- Persisted record, one upsert-payload row: the snake_case rename of the
16 input columns plus `row_id`, `fecha_hora` and `user_id`.  String cells
pass through `safe_json_value` unchanged and missing cells serialize as
JSON null, so `Cell` values here are final payload values. -/
structure Rec where
  row_id : String
  fecha : Cell
  hora : Cell
  tipo_turno : Cell
  paciente : Cell
  dni : Cell
  telefonos : Cell
  mail : Cell
  cobertura : Cell
  ubicacion : Cell
  efector : Cell
  procedimiento : Cell
  domicilio : Cell
  localidad : Cell
  edad : Cell
  estado : Cell
  atendido : Cell
  fecha_hora : Option String
  user_id : String
deriving DecidableEq, Repr

/-- Canonicalization of one validated row: derive `row_id` and
`fecha_hora`, rename the 16 columns to their snake_case equivalents and
attach the uploading principal. -/
def processRow (userId : String) (r : RawRow) : Rec :=
  { row_id := rowId r
    fecha := r.fecha, hora := r.hora, tipo_turno := r.tipoTurno
    paciente := r.paciente, dni := r.dni, telefonos := r.telefonos
    mail := r.mail, cobertura := r.cobertura, ubicacion := r.ubicacion
    efector := r.efector, procedimiento := r.procedimiento
    domicilio := r.domicilio, localidad := r.localidad, edad := r.edad
    estado := r.estado, atendido := r.atendido
    fecha_hora := fechaHora r
    user_id := userId }

/-! ## Store model and idempotent upsert -/

/-- Visible state of the shared `turnos` table, keyed by `row_id` (the
spec's model: a map from row_id to record). -/
def Store := String → Option Rec

/-- Single-record upsert with `on_conflict="row_id"`: insert or full
replace of the record stored under `r.row_id`. -/
def upsert1 (s : Store) (r : Rec) : Store :=
  fun k => if k = r.row_id then some r else s k

/-- Upsert of a record sequence in input order. -/
def upsertSeq (s : Store) (rs : List Rec) : Store := rs.foldl upsert1 s

/-- Last record of the sequence carrying the given key, if any. -/
def lastMatch (rs : List Rec) (k : String) : Option Rec :=
  rs.foldl (fun acc r => if r.row_id = k then some r else acc) none

/-! ## Batched reconciler (the `BATCH = 200` upsert loop) -/

/-- Splitting into 200-record batches, structurally recursive on fuel. -/
def chunkFuel : Nat → List Rec → List (List Rec)
  | 0, _ => []
  | _, [] => []
  | fuel + 1, l => l.take 200 :: chunkFuel fuel (l.drop 200)

/-- Batches `data.iloc[i:i+BATCH]` of the concatenated upload, in order. -/
def chunks200 (l : List Rec) : List (List Rec) := chunkFuel l.length l

/-- Batch loop of the source: each batch is one store round trip.
`fails i = true` means the `i`-th round trip raises.  The result is the
round-trip log (batch indices attempted, in order), the records the store
accepted, and the caller-visible outcome: `some total` when the loop
finishes and the success message reports `total`, `none` when a round trip
raises and the exception propagates (carrying no committed count). -/
def runChunks (fails : Nat → Bool) : Nat → List (List Rec) →
    List Nat × List Rec × Option Nat
  | _, [] => ([], [], some 0)
  | i, c :: cs =>
      if fails i then ([i], [], none)
      else
        let r := runChunks fails (i + 1) cs
        (i :: r.1, c ++ r.2.1, r.2.2.map (· + c.length))

/-- Whole reconciler run over a canonical record sequence. -/
def runUpsert (fails : Nat → Bool) (recs : List Rec) :
    List Nat × List Rec × Option Nat :=
  runChunks fails 0 (chunks200 recs)

/-! ## Tabular reader (`read_any`) and per-file validation loop -/

/-- Required input column names, exact and case-sensitive. -/
def REQUIRED_COLS : List String :=
  ["Fecha", "Hora", "Tipo Turno", "Paciente", "DNI", "Teléfonos", "Mail",
   "Cobertura", "Ubicación", "Efector", "Procedimiento",
   "Domicilio", "Localidad", "Edad", "Estado", "Atendido"]

/-- Rectangular in-memory table: column names and rows of cells. -/
structure Table where
  cols : List String
  rows : List (List Cell)
deriving DecidableEq, Repr

/-- Conversion of one delimited field: the empty field reads as missing
(`NaN`), any other text as itself. -/
def toCell (f : List Char) : Cell :=
  if f = [] then none else some (String.mk f)

/-- Modelled from the library: `pandas.read_csv(file, sep=sep)` on
delimited text.  The first non-blank line is the header; blank lines are
skipped; a data row with more fields than the header raises the tokenizer
error (`none`); shorter rows pad with missing values; empty input raises
(`none`). -/
def parseCsv (sep : Char) (text : List Char) : Option Table :=
  match (splitChar '\n' text).filter (fun l => l ≠ []) with
  | [] => none
  | header :: rest =>
      let cols := (splitChar sep header).map String.mk
      let rowsF := rest.map (splitChar sep)
      if rowsF.all (fun r => r.length ≤ cols.length) then
        some ⟨cols, rowsF.map (fun r =>
          (List.range cols.length).map (fun i => (r.get? i).elim none toCell))⟩
      else none

/-- Content of one uploaded file: raw delimited text for a `.csv` name, or
the first-sheet parse outcome for a spreadsheet name (`none` when the
spreadsheet engine raises). -/
inductive FileData
  | csvText (text : String)
  | excelTable (parsed : Option Table)
deriving DecidableEq

/-- Uploaded file handle: declared name plus content. -/
structure UploadFile where
  name : String
  data : FileData
deriving DecidableEq

/-- Candidate-delimiter loop of `read_any`: first candidate whose parse
raises no error and yields more than one column. -/
def trySeps (text : List Char) : List Char → Option Table
  | [] => none
  | s :: rest =>
      match parseCsv s text with
      | some tb => if tb.cols.length > 1 then some tb else trySeps text rest
      | none => trySeps text rest

/-- Model of `read_any`: for `.csv` names, the candidate loop over comma,
semicolon and tab, then the unguarded default `pd.read_csv` fallback
(whose own failure propagates as `.error`); for spreadsheet names, the
fixed single-strategy spreadsheet parse. -/
def read_any (f : UploadFile) : Except Unit Table :=
  match f.data with
  | .csvText t =>
      match trySeps t.data [',', ';', '\t'] with
      | some tb => .ok tb
      | none =>
          match parseCsv ',' t.data with
          | some tb => .ok tb
          | none => .error ()
  | .excelTable (some tb) => .ok tb
  | .excelTable none => .error ()

/-- Cell of a named column in a row of a parsed table. -/
def getCell (cols : List String) (row : List Cell) (name : String) : Cell :=
  match cols.findIdx? (· = name) with
  | some i => (row.get? i).getD none
  | none => none

/-- Assembly of a validated table row into a `RawRow` by column name. -/
def toRawRow (cols : List String) (row : List Cell) : RawRow :=
  { fecha := getCell cols row "Fecha", hora := getCell cols row "Hora"
    tipoTurno := getCell cols row "Tipo Turno"
    paciente := getCell cols row "Paciente", dni := getCell cols row "DNI"
    telefonos := getCell cols row "Teléfonos", mail := getCell cols row "Mail"
    cobertura := getCell cols row "Cobertura"
    ubicacion := getCell cols row "Ubicación"
    efector := getCell cols row "Efector"
    procedimiento := getCell cols row "Procedimiento"
    domicilio := getCell cols row "Domicilio"
    localidad := getCell cols row "Localidad", edad := getCell cols row "Edad"
    estado := getCell cols row "Estado"
    atendido := getCell cols row "Atendido" }

/-- Missing-column report of the validator, in required-column order. -/
def missingCols (cols : List String) : List String :=
  REQUIRED_COLS.filter (fun c => !(cols.contains c))

/-- Outcome of one file inside an upload batch: skipped with its reported
missing-column list, or loaded into canonical records. -/
inductive FileOutcome
  | skipped (name : String) (missing : List String)
  | loaded (recs : List Rec)
deriving DecidableEq

/-- Per-file step of the upload loop: validate the column set, then
canonicalize every row. -/
def processFileTable (userId name : String) (tb : Table) : FileOutcome :=
  let missing := missingCols tb.cols
  if missing = [] then
    .loaded (tb.rows.map (fun row => processRow userId (toRawRow tb.cols row)))
  else .skipped name missing

/-- Upload loop over the selected files.  `read_any` is called without any
surrounding handler, so a file whose read raises propagates the exception
(`.error`) and abandons the whole run; a validation failure only skips the
one file. -/
def runFiles (userId : String) : List UploadFile → Except Unit (List FileOutcome)
  | [] => .ok []
  | f :: fs =>
      match read_any f with
      | .error e => .error e
      | .ok tb =>
          match runFiles userId fs with
          | .error e => .error e
          | .ok outs => .ok (processFileTable userId f.name tb :: outs)

/-- Concatenation `pd.concat(all_new)` of the loaded files' records. -/
def allRecs (outs : List FileOutcome) : List Rec :=
  (outs.map (fun o => match o with
    | .skipped _ _ => []
    | .loaded rs => rs)).flatten

/-- Committed total as the caller sees it: `none` when the run raised. -/
def committedOfRun (r : Except Unit (List FileOutcome)) : Option Nat :=
  match r with
  | .error _ => none
  | .ok outs => some (allRecs outs).length

/-! ## Range reader (`fetch_turnos`) -/

/-- Lexicographic order on character lists by code point. -/
def lexLeChars : List Char → List Char → Bool
  | [], _ => true
  | _ :: _, [] => false
  | a :: as, b :: bs =>
      if a.toNat < b.toNat then true
      else if a.toNat = b.toNat then lexLeChars as bs
      else false

/-- Instant order on serialized timestamps.  On the fixed-width
`%Y-%m-%dT%H:%M:%S.%fZ` strings the store holds, the server's
chronological `timestamptz` comparison coincides with byte order. -/
def strLe (a b : String) : Bool := lexLeChars a.data b.data

/-- Inclusive server-side `fecha_hora` filter: `gte`/`lte` bounds; a null
`fecha_hora` satisfies neither comparison. -/
def inRangeB (f t : String) (r : Rec) : Bool :=
  match r.fecha_hora with
  | some s => strLe f s && strLe s t
  | none => false

/-- Page loop of `fetch_turnos`: offset reads of `pageSize` rows, extending
the accumulator, stopping at the first short page or when the page budget
runs out. -/
def pageLoop (rows : List Rec) (pageSize : Nat) : Nat → Nat → List Rec → List Rec
  | 0, _, acc => acc
  | maxPages + 1, fromI, acc =>
      let page := (rows.drop fromI).take pageSize
      if page.length < pageSize then acc ++ page
      else pageLoop rows pageSize maxPages (fromI + pageSize) (acc ++ page)

/-- Model of `fetch_turnos(date_from, date_to, page_size=5000,
max_pages=40)`: the `fecha_hora` range filter is attached only when both
bounds are given, then the store is read page by page. -/
def fetch_turnos (store : List Rec) (dateFrom dateTo : Option String) : List Rec :=
  let q := match dateFrom, dateTo with
    | some f, some t => store.filter (inRangeB f t)
    | _, _ => store
  pageLoop q 5000 40 0 []

/-! ## JSON-safe scalar normalization (`safe_json_value`) -/

/-- Value of a Python/numpy floating-point scalar: NaN, a signed infinity,
or a finite value (finite doubles are rationals). -/
inductive PFloat
  | nan
  | inf (neg : Bool)
  | fin (q : ℚ)
deriving DecidableEq

/-- Scalar cell value as handed to `safe_json_value`: `None`/missing, a
float (numpy or plain — both take the same branch outcome), an aware UTC
timestamp (epoch minutes), an integer (numpy or plain), or a string. -/
inductive PyVal
  | vnone
  | vfloat (x : PFloat)
  | vts (u : Int)
  | vint (n : Int)
  | vstr (s : String)
deriving DecidableEq

/-- JSON scalar of the upsert payload. -/
inductive JVal
  | jnull
  | jint (n : Int)
  | jfloat (q : ℚ)
  | jstr (s : String)
deriving DecidableEq

/-- Model of `safe_json_value`: `None` and NaN/infinite floats (also any
`pd.isna` value) give null; an aware timestamp renders through
`to_iso_utc`; numpy integers give `int(v)`; numpy floats give `float(v)`
— still a float — and any remaining value returns unchanged. -/
def safe_json_value : PyVal → JVal
  | .vnone => .jnull
  | .vfloat .nan => .jnull
  | .vfloat (.inf _) => .jnull
  | .vfloat (.fin q) => .jfloat q
  | .vts u => .jstr (isoUtcOfMin u)
  | .vint n => .jint n
  | .vstr s => .jstr s


/-! ## Store lookup characterization and idempotence -/

/-- First-biased merge of two optional records. -/
def mergeO (a b : Option Rec) : Option Rec :=
  match a with
  | some x => some x
  | none => b

/-- Folding the last-match scan from an arbitrary accumulator. -/
theorem lastMatch_foldl (k : String) (rs : List Rec) :
    ∀ a : Option Rec,
      rs.foldl (fun acc r => if r.row_id = k then some r else acc) a =
        mergeO (lastMatch rs k) a := by
  induction rs with
  | nil => intro a; rfl
  | cons x xs ih =>
      intro a
      have hstep : lastMatch (x :: xs) k =
          mergeO (lastMatch xs k) (if x.row_id = k then some x else none) :=
        ih (if x.row_id = k then some x else none)
      have hl : (x :: xs).foldl
            (fun acc r => if r.row_id = k then some r else acc) a =
          xs.foldl (fun acc r => if r.row_id = k then some r else acc)
            (if x.row_id = k then some x else a) := rfl
      rw [hl, ih, hstep]
      cases lastMatch xs k with
      | some r => rfl
      | none => by_cases h : x.row_id = k <;> simp [h, mergeO]

/-- Pointwise value of an upserted store: the last record of the sequence
with the key, else the previous stored value. -/
theorem upsertSeq_apply (s : Store) (rs : List Rec) (k : String) :
    upsertSeq s rs k = mergeO (lastMatch rs k) (s k) := by
  induction rs generalizing s with
  | nil => rfl
  | cons x xs ih =>
      have hstep : lastMatch (x :: xs) k =
          mergeO (lastMatch xs k) (if x.row_id = k then some x else none) :=
        lastMatch_foldl k xs (if x.row_id = k then some x else none)
      have hl : upsertSeq s (x :: xs) k = upsertSeq (upsert1 s x) xs k := rfl
      rw [hl, ih, hstep]
      cases lastMatch xs k with
      | some r => rfl
      | none =>
          show upsert1 s x k = mergeO (if x.row_id = k then some x else none) (s k)
          by_cases h : x.row_id = k
          · rw [if_pos h]
            show (if k = x.row_id then some x else s k) = some x
            rw [if_pos h.symm]
          · rw [if_neg h]
            show (if k = x.row_id then some x else s k) = mergeO none (s k)
            rw [if_neg (fun hh => h hh.symm)]
            rfl

/-- C2.  Upsert keyed by `row_id` is idempotent: for every sequence of
canonical records, upserting the same sequence twice leaves the store's
visible state (the map from row_id to record, with insert-or-full-replace
upsert) identical to upserting it once. -/
theorem upsert_idempotent (s : Store) (rs : List Rec) :
    upsertSeq (upsertSeq s rs) rs = upsertSeq s rs := by
  funext k
  rw [upsertSeq_apply, upsertSeq_apply]
  cases lastMatch rs k <;> rfl

/-! ## Range reader theorems -/

/-- Closed form of the page loop: with a positive page size it collects
exactly the first `pageSize * maxPages` rows past the offset. -/
theorem pageLoop_eq (rows : List Rec) (ps : Nat) (_hps : 0 < ps) :
    ∀ (mp fromI : Nat) (acc : List Rec),
      pageLoop rows ps mp fromI acc = acc ++ (rows.drop fromI).take (ps * mp) := by
  intro mp
  induction mp with
  | zero => intro fromI acc; simp [pageLoop]
  | succ mp ih =>
      intro fromI acc
      simp only [pageLoop]
      rcases Nat.lt_or_ge (rows.drop fromI).length ps with hlen | hlen
      · have hcond : ((rows.drop fromI).take ps).length < ps := by
          rw [List.length_take]; omega
        simp only [hcond, if_true]
        rw [List.take_of_length_le (Nat.le_of_lt hlen),
            List.take_of_length_le (le_trans (Nat.le_of_lt hlen)
              (Nat.le_mul_of_pos_right ps (Nat.succ_pos mp)))]
      · have hcond : ¬ ((rows.drop fromI).take ps).length < ps := by
          rw [List.length_take]; omega
        simp only [hcond, if_false]
        rw [ih, List.append_assoc]
        congr 1
        have : ps * (mp + 1) = ps + ps * mp := by ring
        rw [this, List.take_add, List.drop_drop, Nat.add_comm fromI ps]

/-- Read with both bounds: the filtered store truncated at the page
budget. -/
theorem fetch_turnos_both (store : List Rec) (f t : String) :
    fetch_turnos store (some f) (some t) =
      (store.filter (inRangeB f t)).take (5000 * 40) := by
  show pageLoop (store.filter (inRangeB f t)) 5000 40 0 [] = _
  rw [pageLoop_eq _ _ (by decide) 40 0 []]
  simp

/-- C10.  The server-side `fecha_hora` range filter is attached only when
both bounds are supplied: with one bound (or none) missing, the read pages
the unfiltered store. -/
theorem fetch_turnos_unbounded (store : List Rec) (dF dT : Option String)
    (h : dF = none ∨ dT = none) :
    fetch_turnos store dF dT = store.take (5000 * 40) := by
  have hp : pageLoop store 5000 40 0 [] = store.take (5000 * 40) := by
    rw [pageLoop_eq _ _ (by decide) 40 0 []]; simp
  rcases h with h | h
  · subst h; cases dT <;> exact hp
  · subst h; cases dF <;> exact hp

/-- C8.  With both bounds given, the range read returns exactly the stored
records whose `fecha_hora` lies in the inclusive interval, provided the
match set fits the `page_size * max_pages` budget of the loop; an empty
match set returns an empty table. -/
theorem range_read_exact (store : List Rec) (f t : String)
    (h : (store.filter (inRangeB f t)).length ≤ 5000 * 40) :
    fetch_turnos store (some f) (some t) = store.filter (inRangeB f t) ∧
    (store.filter (inRangeB f t) = [] →
      fetch_turnos store (some f) (some t) = []) := by
  refine ⟨?_, ?_⟩
  · rw [fetch_turnos_both, List.take_of_length_le h]
  · intro h0; rw [fetch_turnos_both, h0]; simp

/-! ## Concrete records for witnesses -/

/-- Record with the given key and timestamp and blank descriptive fields. -/
def mkRec (id : String) (fh : Option String) : Rec :=
  { row_id := id, fecha := none, hora := none, tipo_turno := none
    paciente := none, dni := none, telefonos := none, mail := none
    cobertura := none, ubicacion := none, efector := none
    procedimiento := none, domicilio := none, localidad := none
    edad := none, estado := none, atendido := none
    fecha_hora := fh, user_id := "u" }

/-- Three-record store used by the range-reader witnesses. -/
def rangeStore : List Rec :=
  [mkRec "a" (some "2024-03-01T12:00:00.000000Z"),
   mkRec "b" (some "2024-04-01T12:00:00.000000Z"),
   mkRec "c" none]

/-- Witness for C8 at a concrete store and interval: the March interval
returns exactly the single matching record. -/
theorem range_read_exact_witness :
    (rangeStore.filter
        (inRangeB "2024-03-01T00:00:00.000000Z" "2024-03-31T00:00:00.000000Z")).length
      ≤ 5000 * 40 ∧
    fetch_turnos rangeStore (some "2024-03-01T00:00:00.000000Z")
        (some "2024-03-31T00:00:00.000000Z") =
      rangeStore.filter
        (inRangeB "2024-03-01T00:00:00.000000Z" "2024-03-31T00:00:00.000000Z") ∧
    rangeStore.filter
        (inRangeB "2024-03-01T00:00:00.000000Z" "2024-03-31T00:00:00.000000Z") =
      [mkRec "a" (some "2024-03-01T12:00:00.000000Z")] :=
  ⟨by decide,
   (range_read_exact rangeStore _ _ (by decide)).1,
   by decide⟩

/-- Witness for C10 at a concrete store: a read with only a lower bound
pages the whole unfiltered store. -/
theorem fetch_turnos_unbounded_witness :
    fetch_turnos rangeStore (some "2024-03-01T00:00:00.000000Z") none =
      rangeStore.take (5000 * 40) ∧
    rangeStore.take (5000 * 40) = rangeStore :=
  ⟨fetch_turnos_unbounded rangeStore (some "2024-03-01T00:00:00.000000Z") none
      (Or.inr rfl),
   by decide⟩

/-! ## JSON-safe normalization theorems -/

/-- C9 counterexample: an integral float does not become an integer — the
source returns it as a float. -/
theorem integral_float_not_int :
    safe_json_value (.vfloat (.fin 2)) = .jfloat 2 ∧
    safe_json_value (.vfloat (.fin 2)) ≠ .jint 2 :=
  ⟨rfl, fun h => by cases h⟩

/-- C9 as amended.  Numeric normalization of `safe_json_value`: `None`,
NaN and the infinities become null; finite floats stay floats with the
same value (no integer conversion); integers pass through as integers. -/
theorem safe_json_value_numeric :
    safe_json_value .vnone = .jnull ∧
    safe_json_value (.vfloat .nan) = .jnull ∧
    (∀ b, safe_json_value (.vfloat (.inf b)) = .jnull) ∧
    (∀ q : ℚ, safe_json_value (.vfloat (.fin q)) = .jfloat q) ∧
    (∀ n : Int, safe_json_value (.vint n) = .jint n) :=
  ⟨rfl, rfl, fun _ => rfl, fun _ => rfl, fun _ => rfl⟩

/-! ## Row-identity theorems -/

/-- C1 as amended.  `row_id` is the SHA-1 (lowercase hex over UTF-8) of
the five identity fields joined by `|` in the order national_id, date
text, time text, site, procedure — with a missing value rendered as the
string `nan` by the string conversion (the blank substitution chained
after it is a no-op) — and it is a function of exactly those five fields:
rows agreeing on them share the same `row_id`. -/
theorem rowId_spec (r r' : RawRow)
    (h1 : r.dni = r'.dni) (h2 : r.fecha = r'.fecha) (h3 : r.hora = r'.hora)
    (h4 : r.ubicacion = r'.ubicacion) (h5 : r.procedimiento = r'.procedimiento) :
    rowId r = sha1hex (strCell r.dni ++ "|" ++ strCell r.fecha ++ "|" ++
      strCell r.hora ++ "|" ++ strCell r.ubicacion ++ "|" ++
      strCell r.procedimiento) ∧
    rowId r = rowId r' := by
  constructor
  · rfl
  · unfold rowId rowKey
    rw [h1, h2, h3, h4, h5]

/-- Row used by the C1 witness. -/
def c1RowA : RawRow :=
  { fecha := some "01/03/2024", hora := some "09:30", tipoTurno := none
    paciente := some "Juan Pérez", dni := some "12345678", telefonos := none
    mail := none, cobertura := none, ubicacion := some "Centro Norte"
    efector := none, procedimiento := some "Ecografía", domicilio := none
    localidad := none, edad := none, estado := none, atendido := none }

/-- Row differing from `c1RowA` only in descriptive fields. -/
def c1RowB : RawRow :=
  { fecha := some "01/03/2024", hora := some "09:30"
    tipoTurno := some "Programado", paciente := some "J. Pérez (editado)"
    dni := some "12345678", telefonos := some "555-1234", mail := none
    cobertura := some "OSDE", ubicacion := some "Centro Norte"
    efector := some "Dr. X", procedimiento := some "Ecografía"
    domicilio := none, localidad := none, edad := some "44"
    estado := some "Atendido", atendido := some "Si" }

/-- Witness for C1: at two concrete rows agreeing on the five identity
fields, the digest formula holds and the ids coincide. -/
theorem rowId_spec_witness :
    rowId c1RowA = sha1hex (strCell c1RowA.dni ++ "|" ++ strCell c1RowA.fecha
      ++ "|" ++ strCell c1RowA.hora ++ "|" ++ strCell c1RowA.ubicacion ++ "|"
      ++ strCell c1RowA.procedimiento) ∧
    rowId c1RowA = rowId c1RowB :=
  rowId_spec c1RowA c1RowB rfl rfl rfl rfl rfl

/-- Row with a missing DNI cell, for the C1 counterexample. -/
def c1RowMissing : RawRow :=
  { fecha := some "01/03/2024", hora := some "09:30", tipoTurno := none
    paciente := none, dni := none, telefonos := none, mail := none
    cobertura := none, ubicacion := some "Centro", efector := none
    procedimiento := some "Eco", domicilio := none, localidad := none
    edad := none, estado := none, atendido := none }

/-- C1 counterexample: with a missing DNI the hashed key carries the text
`nan`, not a blank, so the claimed blank-substituted digest differs from
the computed `row_id`. -/
theorem rowId_blank_counterexample :
    rowId c1RowMissing = sha1hex "nan|01/03/2024|09:30|Centro|Eco" ∧
    rowId c1RowMissing ≠ sha1hex "|01/03/2024|09:30|Centro|Eco" := by
  constructor
  · rfl
  · decide

/-! ## Batch-loop lemmas -/

/-- Flattening the batches recovers the record sequence. -/
theorem chunkFuel_flatten :
    ∀ (fuel : Nat) (l : List Rec), l.length ≤ fuel →
      (chunkFuel fuel l).flatten = l := by
  intro fuel
  induction fuel with
  | zero =>
      intro l hl
      have hnil : l = [] := List.eq_nil_of_length_eq_zero (Nat.le_zero.mp hl)
      subst hnil; rfl
  | succ fuel ih =>
      intro l hl
      cases l with
      | nil => rfl
      | cons x xs =>
          show ((x :: xs).take 200 :: chunkFuel fuel ((x :: xs).drop 200)).flatten
              = x :: xs
          rw [List.flatten_cons, ih ((x :: xs).drop 200)
                (by simp only [List.length_drop]; simp at hl ⊢; omega),
              List.take_append_drop]

/-- Flattening `chunks200` recovers the record sequence. -/
theorem chunks200_flatten (l : List Rec) : (chunks200 l).flatten = l :=
  chunkFuel_flatten l.length l (Nat.le_refl _)

/-- Batch loop without store failures: every batch is attempted once in
order, every record is committed, and the reported total is the record
count. -/
theorem runChunks_noFail (fails : Nat → Bool) (h : ∀ j, fails j = false) :
    ∀ (cs : List (List Rec)) (i : Nat),
      runChunks fails i cs =
        ((List.range cs.length).map (i + ·), cs.flatten,
          some cs.flatten.length) := by
  intro cs
  induction cs with
  | nil => intro i; rfl
  | cons c cs ih =>
      intro i
      show (if fails i = true then ([i], [], none)
            else
              let r := runChunks fails (i + 1) cs
              (i :: r.1, c ++ r.2.1, r.2.2.map (· + c.length))) = _
      rw [h i, if_neg (by simp)]
      rw [ih (i + 1)]
      refine congrArg₂ Prod.mk ?_ (congrArg₂ Prod.mk ?_ ?_)
      · rw [List.length_cons, List.range_succ_eq_map, List.map_cons,
            List.map_map]
        refine congrArg₂ List.cons (by omega) (List.map_congr_left ?_)
        intro j _
        show i + 1 + j = i + (j + 1)
        omega
      · rw [List.flatten_cons]
      · show some (cs.flatten.length + c.length) = some (c ++ cs.flatten).length
        rw [List.length_append]
        exact congrArg some (Nat.add_comm _ _)

/-- Reconciler run without store failures: everything is committed and the
reported total is the sequence length. -/
theorem runUpsert_noFail (recs : List Rec) :
    (runUpsert (fun _ => false) recs).2.1 = recs ∧
    (runUpsert (fun _ => false) recs).2.2 = some recs.length := by
  have h := runChunks_noFail (fun _ => false) (fun _ => rfl) (chunks200 recs) 0
  constructor
  · show (runChunks (fun _ => false) 0 (chunks200 recs)).2.1 = recs
    rw [h]
    exact chunks200_flatten recs
  · show (runChunks (fun _ => false) 0 (chunks200 recs)).2.2 = some recs.length
    rw [h]
    show some (chunks200 recs).flatten.length = some recs.length
    rw [chunks200_flatten]

/-! ## Null-timestamp ingestion (C3) and UTC normalization (C4) -/

/-- C3.  A row whose composed date/time text fails the day-first parse, or
whose wall-clock time is ambiguous or nonexistent under daylight saving,
gets a null `fecha_hora`; the step is a total function (never raises), the
row is still canonicalized with its original date and time display cells
preserved, stays in the batch (one record per input row), and a
failure-free reconciler run commits it with the rest. -/
theorem nullTime_row_kept (u : String) (rows : List RawRow) (r : RawRow)
    (hmem : r ∈ rows)
    (h : parseDayFirst (composedDT r) = none ∨
         ∃ n, parseDayFirst (composedDT r) = some n ∧ argLocalizeUtcMin n = none) :
    (processRow u r).fecha_hora = none ∧
    (processRow u r).fecha = r.fecha ∧
    (processRow u r).hora = r.hora ∧
    processRow u r ∈ rows.map (processRow u) ∧
    (rows.map (processRow u)).length = rows.length ∧
    (runUpsert (fun _ => false) (rows.map (processRow u))).2.1 =
      rows.map (processRow u) := by
  have hfh : fechaHora r = none := by
    unfold fechaHora fhRaw to_iso_utc
    rcases h with h | ⟨n, hn, hloc⟩
    · rw [h]; rfl
    · rw [hn]
      show (argLocalizeUtcMin n).map isoUtcOfMin = none
      rw [hloc]; rfl
  refine ⟨hfh, rfl, rfl, List.mem_map_of_mem _ hmem, by simp,
    (runUpsert_noFail _).1⟩

/-- Row with an invalid date and time, for the C3 witness. -/
def c3Row : RawRow :=
  { fecha := some "31/02/2024", hora := some "99:99", tipoTurno := none
    paciente := none, dni := some "111", telefonos := none, mail := none
    cobertura := none, ubicacion := some "Centro", efector := none
    procedimiento := some "Eco", domicilio := none, localidad := none
    edad := none, estado := none, atendido := none }

/-- Witness for C3: `31/02/2024 99:99` fails to parse, the record keeps
null `fecha_hora` and the original display text, and is still produced. -/
theorem nullTime_row_kept_witness :
    parseDayFirst (composedDT c3Row) = none ∧
    (processRow "u1" c3Row).fecha_hora = none ∧
    (processRow "u1" c3Row).fecha = some "31/02/2024" ∧
    processRow "u1" c3Row ∈ [c3Row].map (processRow "u1") := by
  have hk := nullTime_row_kept "u1" [c3Row] c3Row (List.mem_singleton.mpr rfl)
    (Or.inl (by decide))
  exact ⟨by decide, hk.1, hk.2.1, hk.2.2.2.1⟩

/-- C4.  For a row whose date and time text parse (day-first), the
serialized `fecha_hora` is the Buenos Aires localization of the naive
timestamp converted to UTC and rendered with fixed microseconds and a
literal `Z`; an ambiguous or nonexistent wall-clock instant yields null. -/
theorem occurredAt_utc (r : RawRow) (n : NaiveDT)
    (h : parseDayFirst (composedDT r) = some n) :
    fechaHora r = (argLocalizeUtcMin n).map isoUtcOfMin ∧
    (argLocalizeUtcMin n = none → fechaHora r = none) := by
  have h1 : fechaHora r = (argLocalizeUtcMin n).map isoUtcOfMin := by
    unfold fechaHora fhRaw to_iso_utc
    rw [h]
    rfl
  exact ⟨h1, fun hl => by rw [h1, hl]; rfl⟩

/-- Row with a valid date and time, for the C4 witness. -/
def c4Row : RawRow :=
  { fecha := some "01/03/2024", hora := some "09:30", tipoTurno := none
    paciente := none, dni := some "222", telefonos := none, mail := none
    cobertura := none, ubicacion := some "Centro", efector := none
    procedimiento := some "Eco", domicilio := none, localidad := none
    edad := none, estado := none, atendido := none }

/-- Witness for C4 at the spec's reference conversion: `01/03/2024 09:30`
is March 1st (day-first), wall clock UTC-3, hence
`2024-03-01T12:30:00.000000Z`. -/
theorem occurredAt_utc_witness :
    parseDayFirst (composedDT c4Row) = some ⟨2024, 3, 1, 9, 30⟩ ∧
    fechaHora c4Row = (argLocalizeUtcMin ⟨2024, 3, 1, 9, 30⟩).map isoUtcOfMin ∧
    fechaHora c4Row = some "2024-03-01T12:30:00.000000Z" :=
  ⟨by decide,
   (occurredAt_utc c4Row ⟨2024, 3, 1, 9, 30⟩ (by decide)).1,
   by decide⟩

/-- Concrete behaviour of the modelled Buenos Aires localization: a
spring-forward gap instant and a fall-back fold instant map to null, a
daylight-saving instant converts at UTC-2, a standard instant at UTC-3. -/
theorem argLocalize_examples :
    argLocalizeUtcMin ⟨2008, 10, 19, 0, 30⟩ = none ∧
    argLocalizeUtcMin ⟨2008, 3, 15, 23, 30⟩ = none ∧
    (argLocalizeUtcMin ⟨2008, 2, 1, 9, 30⟩).map isoUtcOfMin =
      some "2008-02-01T11:30:00.000000Z" ∧
    (argLocalizeUtcMin ⟨2024, 3, 1, 9, 30⟩).map isoUtcOfMin =
      some "2024-03-01T12:30:00.000000Z" := by decide

/-! ## Partial batch failure (C6) -/

/-- Flattening the first `k` batches yields the first `200 * k` records. -/
theorem chunkFuel_take_flatten :
    ∀ (fuel : Nat) (l : List Rec) (k : Nat), l.length ≤ fuel →
      ((chunkFuel fuel l).take k).flatten = l.take (200 * k) := by
  intro fuel
  induction fuel with
  | zero =>
      intro l k hl
      have hnil : l = [] := List.eq_nil_of_length_eq_zero (Nat.le_zero.mp hl)
      subst hnil
      simp [chunkFuel]
  | succ fuel ih =>
      intro l k hl
      cases l with
      | nil => simp [chunkFuel]
      | cons x xs =>
          cases k with
          | zero => simp
          | succ k =>
              show (((x :: xs).take 200 :: chunkFuel fuel ((x :: xs).drop 200)).take
                  (k + 1)).flatten = (x :: xs).take (200 * (k + 1))
              rw [List.take_succ_cons, List.flatten_cons,
                  ih ((x :: xs).drop 200) k
                    (by simp only [List.length_drop]; simp at hl ⊢; omega)]
              have h200 : 200 * (k + 1) = 200 + 200 * k := by ring
              rw [h200, List.take_add]

/-- Record count below the batch budget bounds the batch count from
below. -/
theorem chunkFuel_length_lt :
    ∀ (k fuel : Nat) (l : List Rec), l.length ≤ fuel → 200 * k < l.length →
      k < (chunkFuel fuel l).length := by
  intro k
  induction k with
  | zero =>
      intro fuel l hl hk
      cases l with
      | nil => simp at hk
      | cons x xs =>
          cases fuel with
          | zero => simp at hl
          | succ fuel =>
              show 0 < ((x :: xs).take 200 :: chunkFuel fuel ((x :: xs).drop 200)).length
              simp
  | succ k ih =>
      intro fuel l hl hk
      cases l with
      | nil => simp at hk
      | cons x xs =>
          cases fuel with
          | zero => simp at hl
          | succ fuel =>
              show k + 1 < ((x :: xs).take 200 :: chunkFuel fuel ((x :: xs).drop 200)).length
              rw [List.length_cons]
              have hrec := ih fuel ((x :: xs).drop 200)
                (by simp only [List.length_drop]; simp at hl ⊢; omega)
                (by simp only [List.length_drop]; simp at hk ⊢; omega)
              omega

/-- Batch loop hitting its first failing round trip at relative batch
index `k`: the batches before `k` were delivered, batch `k` was attempted
(once, and nothing after it), and the outcome is the bare exception. -/
theorem runChunks_firstFail (fails : Nat → Bool) :
    ∀ (k : Nat) (cs : List (List Rec)) (i : Nat),
      fails (i + k) = true → (∀ j, j < k → fails (i + j) = false) →
      k < cs.length →
      runChunks fails i cs =
        ((List.range (k + 1)).map (i + ·), (cs.take k).flatten, none) := by
  intro k
  induction k with
  | zero =>
      intro cs i hk _ hlen
      cases cs with
      | nil => simp at hlen
      | cons c cs =>
          rw [Nat.add_zero] at hk
          show (if fails i = true then ([i], [], none)
                else
                  let r := runChunks fails (i + 1) cs
                  (i :: r.1, c ++ r.2.1, r.2.2.map (· + c.length))) =
            ((List.range 1).map (i + ·), ((c :: cs).take 0).flatten, none)
          rw [hk, if_pos rfl]
          have h1 : List.range 1 = [0] := rfl
          rw [h1]
          simp
  | succ k ih =>
      intro cs i hk hprev hlen
      cases cs with
      | nil => simp at hlen
      | cons c cs =>
          have h0 : fails i = false := by
            have := hprev 0 (Nat.succ_pos k)
            simpa using this
          show (if fails i = true then ([i], [], none)
                else
                  let r := runChunks fails (i + 1) cs
                  (i :: r.1, c ++ r.2.1, r.2.2.map (· + c.length))) =
            ((List.range (k + 1 + 1)).map (i + ·),
              ((c :: cs).take (k + 1)).flatten, none)
          rw [h0, if_neg (by simp)]
          rw [ih cs (i + 1)
                (by rw [← hk]; congr 1; omega)
                (fun j hj => by
                  have := hprev (j + 1) (by omega)
                  rw [← this]; congr 1; omega)
                (by simp at hlen ⊢; omega)]
          have hr : (List.range (k + 1 + 1)).map (i + ·) =
              i :: (List.range (k + 1)).map (i + 1 + ·) := by
            rw [List.range_succ_eq_map, List.map_cons, List.map_map]
            refine congrArg₂ List.cons (by omega) (List.map_congr_left ?_)
            intro j _
            show i + (j + 1) = i + 1 + j
            omega
          rw [hr, List.take_succ_cons, List.flatten_cons]
          rfl

/-- C6 as amended.  When round trip `k` is the first to fail, the records
of the prior `k` batches stay committed in the store (no rollback), the
round-trip log shows batches `0..k` each attempted exactly once (no
automatic retry, nothing after the failure), and the caller-visible
outcome is the bare propagated exception — which carries no committed
count. -/
theorem batch_failure_partial (fails : Nat → Bool) (recs : List Rec) (k : Nat)
    (hfail : fails k = true)
    (hprev : (List.range k).all (fun j => !fails j) = true)
    (hlen : 200 * k < recs.length) :
    (runUpsert fails recs).2.1 = recs.take (200 * k) ∧
    (runUpsert fails recs).2.2 = none ∧
    (runUpsert fails recs).1 = List.range (k + 1) ∧
    (runUpsert fails recs).1.Nodup ∧
    (∀ s : Store, upsertSeq s (runUpsert fails recs).2.1 =
      upsertSeq s (recs.take (200 * k))) := by
  have hprev' : ∀ j, j < k → fails j = false := by
    intro j hj
    have := List.all_eq_true.mp hprev j (List.mem_range.mpr hj)
    simpa using this
  have hh : runUpsert fails recs =
      ((List.range (k + 1)).map (0 + ·), ((chunks200 recs).take k).flatten,
        none) :=
    runChunks_firstFail fails k (chunks200 recs) 0
      (by simpa using hfail)
      (fun j hj => by simpa using hprev' j hj)
      (chunkFuel_length_lt k recs.length recs (Nat.le_refl _) hlen)
  have hmap : (List.range (k + 1)).map (0 + ·) = List.range (k + 1) := by
    simp
  have hflat : ((chunks200 recs).take k).flatten = recs.take (200 * k) :=
    chunkFuel_take_flatten recs.length recs k (Nat.le_refl _)
  rw [hh, hmap, hflat]
  exact ⟨rfl, rfl, rfl, List.nodup_range _, fun s => rfl⟩

/-- Record sequence spanning three batches, for the C6 theorems. -/
def c6Recs : List Rec := List.replicate 401 (mkRec "w" none)

/-- Failure profile hitting the second round trip. -/
def failsAt1 : Nat → Bool := fun i => i == 1

/-- Failure profile hitting the first round trip. -/
def failsAt0 : Nat → Bool := fun i => i == 0

/-- Witness for C6: the second of three round trips fails, the first
batch's 200 records stay committed, batches 0 and 1 were each attempted
once, and the outcome carries no count. -/
theorem batch_failure_partial_witness :
    failsAt1 1 = true ∧
    (List.range 1).all (fun j => !failsAt1 j) = true ∧
    200 * 1 < c6Recs.length ∧
    (runUpsert failsAt1 c6Recs).2.1 = c6Recs.take (200 * 1) ∧
    (runUpsert failsAt1 c6Recs).2.2 = none ∧
    (runUpsert failsAt1 c6Recs).1 = List.range 2 := by
  have h := batch_failure_partial failsAt1 c6Recs 1 (by decide) (by decide)
    (by decide)
  exact ⟨by decide, by decide, by decide, h.1, h.2.1, h.2.2.1⟩

/-- C6 counterexample: two failing runs with different already-committed
record counts produce the identical caller-visible outcome, so the
surfaced failure does not tell the caller the committed count. -/
theorem batch_failure_count_not_surfaced :
    (runUpsert failsAt0 c6Recs).2.2 = (runUpsert failsAt1 c6Recs).2.2 ∧
    (runUpsert failsAt0 c6Recs).2.2 = none ∧
    (runUpsert failsAt0 c6Recs).2.1.length = 0 ∧
    (runUpsert failsAt1 c6Recs).2.1.length = 200 := by decide

/-! ## File-granularity recovery (C5) -/

/-- Readability test of one file (the read raises no exception). -/
def readOk (f : UploadFile) : Bool :=
  match read_any f with
  | .ok _ => true
  | .error _ => false

/-- Table a readable file parses to. -/
def readTable (f : UploadFile) : Option Table :=
  match read_any f with
  | .ok tb => some tb
  | .error _ => none

/-- Outcome of one file in a run where every file is readable. -/
def processFile1 (u : String) (f : UploadFile) : FileOutcome :=
  processFileTable u f.name ((readTable f).getD ⟨[], []⟩)

/-- Row count an outcome contributes to the committed total. -/
def outRows : FileOutcome → Nat
  | .skipped _ _ => 0
  | .loaded rs => rs.length

/-- Length of the concatenated upload in terms of per-file row counts. -/
theorem allRecs_length (outs : List FileOutcome) :
    (allRecs outs).length = (outs.map outRows).sum := by
  induction outs with
  | nil => rfl
  | cons o os ih =>
      show ((match o with
              | .skipped _ _ => ([] : List Rec)
              | .loaded rs => rs) ++ (allRecs os)).length = _
      rw [List.length_append, ih]
      cases o with
      | skipped n m => rfl
      | loaded rs => rfl

/-- Upload run over readable files: every file is processed, each to its
own outcome, independently of the others. -/
theorem runFiles_all_ok (u : String) (files : List UploadFile)
    (h : files.all readOk = true) :
    runFiles u files = .ok (files.map (processFile1 u)) := by
  induction files with
  | nil => rfl
  | cons f fs ih =>
      rw [List.all_cons, Bool.and_eq_true] at h
      obtain ⟨hf, hfs⟩ := h
      cases hread : read_any f with
      | error e => rw [readOk, hread] at hf; simp at hf
      | ok tb =>
          have hpf : processFile1 u f = processFileTable u f.name tb := by
            rw [processFile1, readTable, hread]
            rfl
          show (match read_any f with
                | .error e => .error e
                | .ok tb =>
                    match runFiles u fs with
                    | .error e => .error e
                    | .ok outs => .ok (processFileTable u f.name tb :: outs)) =
            Except.ok ((f :: fs).map (processFile1 u))
          rw [hread, ih hfs, List.map_cons, hpf]

/-- C5 as amended.  With every file readable, the upload loop recovers
validation failures at file granularity: each file yields its own outcome,
a file missing required columns is skipped and reported with the exact
missing-name list (in required-column order) while the others still load,
the run's committed total is the sum of the valid files' row counts, and a
failure-free reconciler pass reports exactly that total.  (A file whose
read itself raises is not recovered: see the counterexample.) -/
theorem file_isolation (u : String) (files : List UploadFile)
    (h : files.all readOk = true) :
    runFiles u files = .ok (files.map (processFile1 u)) ∧
    committedOfRun (runFiles u files) =
      some ((files.map (fun f => outRows (processFile1 u f))).sum) ∧
    (∀ name tb, missingCols tb.cols ≠ [] →
      processFileTable u name tb = .skipped name (missingCols tb.cols)) ∧
    (∀ name tb, missingCols tb.cols = [] →
      processFileTable u name tb =
        .loaded (tb.rows.map (fun row => processRow u (toRawRow tb.cols row))) ∧
      outRows (processFileTable u name tb) = tb.rows.length) ∧
    (runUpsert (fun _ => false) (allRecs (files.map (processFile1 u)))).2.2 =
      some ((files.map (fun f => outRows (processFile1 u f))).sum) := by
  have h1 := runFiles_all_ok u files h
  have hsum : (allRecs (files.map (processFile1 u))).length =
      (files.map (fun f => outRows (processFile1 u f))).sum := by
    rw [allRecs_length, List.map_map]
    rfl
  refine ⟨h1, ?_, ?_, ?_, ?_⟩
  · rw [h1]
    show some (allRecs (files.map (processFile1 u))).length = _
    rw [hsum]
  · intro name tb hmiss
    rw [processFileTable, if_neg hmiss]
  · intro name tb hmiss
    constructor
    · rw [processFileTable, if_pos hmiss]
    · rw [processFileTable, if_pos hmiss]
      show (tb.rows.map (fun row => processRow u (toRawRow tb.cols row))).length
          = tb.rows.length
      rw [List.length_map]
  · rw [(runUpsert_noFail _).2, hsum]

/-- Valid upload file with the 16 required columns and one data row. -/
def goodFile : UploadFile :=
  ⟨"good.csv", .csvText ("Fecha,Hora,Tipo Turno,Paciente,DNI,Teléfonos,Mail,Cobertura,Ubicación,Efector,Procedimiento,Domicilio,Localidad,Edad,Estado,Atendido\n01/03/2024,09:30,Consulta,Juan,123,555,a@b,OS,Centro,Dr,Eco,Calle,Ciudad,30,OK,Si")⟩

/-- Readable file missing fourteen required columns. -/
def missingColsFile : UploadFile :=
  ⟨"faltan.csv", .csvText "Fecha,Hora\n01/03/2024,09:30"⟩

/-- File whose read raises: empty text, so every parse strategy and the
default fallback fail. -/
def emptyFile : UploadFile := ⟨"vacio.csv", .csvText ""⟩

/-- Witness for C5: one valid and one invalid file in the same upload; the
invalid file is reported with its exact missing-column list and only the
valid file's single row is committed. -/
theorem file_isolation_witness :
    [goodFile, missingColsFile].all readOk = true ∧
    runFiles "u1" [goodFile, missingColsFile] =
      .ok ([goodFile, missingColsFile].map (processFile1 "u1")) ∧
    committedOfRun (runFiles "u1" [goodFile, missingColsFile]) = some 1 ∧
    processFile1 "u1" missingColsFile =
      .skipped "faltan.csv"
        ["Tipo Turno", "Paciente", "DNI", "Teléfonos", "Mail", "Cobertura",
         "Ubicación", "Efector", "Procedimiento", "Domicilio", "Localidad",
         "Edad", "Estado", "Atendido"] :=
  ⟨by decide,
   (file_isolation "u1" [goodFile, missingColsFile] (by decide)).1,
   by decide, by decide⟩

/-- C5 counterexample: an unreadable file does not merely get skipped —
its read exception aborts the whole upload run before any upsert, so the
valid file's row is not committed either, although the same valid file
alone commits one row. -/
theorem unreadable_aborts_upload :
    committedOfRun (runFiles "u1" [emptyFile, goodFile]) = none ∧
    readOk goodFile = true ∧
    committedOfRun (runFiles "u1" [goodFile]) = some 1 := by decide

/-! ## Delimiter inference (C7) -/

/-- Splitting a separator-free suffix yields one final field. -/
theorem splitCharAux_no_split (c : Char) :
    ∀ (l acc : List Char), c ∉ l →
      splitCharAux c l acc = [acc.reverse ++ l] := by
  intro l
  induction l with
  | nil => intro acc _; simp [splitCharAux]
  | cons x xs ih =>
      intro acc h
      have hx : ¬ x = c := fun hh => h (hh ▸ List.mem_cons_self x xs)
      show (if x = c then acc.reverse :: splitCharAux c xs []
            else splitCharAux c xs (x :: acc)) = [acc.reverse ++ x :: xs]
      rw [if_neg hx, ih (x :: acc) (fun hm => h (List.mem_cons_of_mem _ hm))]
      simp

/-- Splitting past the first separator occurrence. -/
theorem splitCharAux_split (c : Char) :
    ∀ (l₁ l₂ acc : List Char), c ∉ l₁ →
      splitCharAux c (l₁ ++ c :: l₂) acc =
        (acc.reverse ++ l₁) :: splitCharAux c l₂ [] := by
  intro l₁
  induction l₁ with
  | nil =>
      intro l₂ acc _
      show (if c = c then acc.reverse :: splitCharAux c l₂ []
            else splitCharAux c l₂ (c :: acc)) = _
      rw [if_pos rfl]
      simp
  | cons x xs ih =>
      intro l₂ acc h
      have hx : ¬ x = c := fun hh => h (hh ▸ List.mem_cons_self x xs)
      show (if x = c then acc.reverse :: splitCharAux c (xs ++ c :: l₂) []
            else splitCharAux c (xs ++ c :: l₂) (x :: acc)) = _
      rw [if_neg hx, ih l₂ (x :: acc) (fun hm => h (List.mem_cons_of_mem _ hm))]
      simp

/-- Separator-free text splits to a single field. -/
theorem splitChar_no (c : Char) (l : List Char) (h : c ∉ l) :
    splitChar c l = [l] := by
  show splitCharAux c l [] = [l]
  rw [splitCharAux_no_split c l [] h]
  rfl

/-- Splitting at the first separator occurrence. -/
theorem splitChar_append (c : Char) (l₁ l₂ : List Char) (h₁ : c ∉ l₁) :
    splitChar c (l₁ ++ c :: l₂) = l₁ :: splitChar c l₂ := by
  show splitCharAux c (l₁ ++ c :: l₂) [] = _
  rw [splitCharAux_split c l₁ l₂ [] h₁]
  rfl

/-- Fields joined by a single separator character (rendering of one
delimited line). -/
def joinSep (c : Char) : List (List Char) → List Char
  | [] => []
  | [f] => f
  | f :: fs => f ++ c :: joinSep c fs

/-- Two-line delimited file: a header line and one data line. -/
def mkDelim (sep : Char) (header row : List (List Char)) : List Char :=
  joinSep sep header ++ '\n' :: joinSep sep row

/-- A character absent from the separator and every field is absent from
the joined line. -/
theorem joinSep_not_mem (c x : Char) (hxc : x ≠ c) :
    ∀ fs : List (List Char), (∀ f ∈ fs, x ∉ f) → x ∉ joinSep c fs := by
  intro fs
  induction fs with
  | nil => intro _; simp [joinSep]
  | cons f fs' ih =>
      intro h
      cases fs' with
      | nil => exact h f (List.mem_cons_self _ _)
      | cons g gs =>
          show x ∉ f ++ c :: joinSep c (g :: gs)
          intro hmem
          rcases List.mem_append.mp hmem with hmf | hmc
          · exact h f (List.mem_cons_self _ _) hmf
          · rcases List.mem_cons.mp hmc with he | hm2
            · exact hxc he
            · exact ih (fun f2 hf2 => h f2 (List.mem_cons_of_mem _ hf2)) hm2

/-- A line joined from at least two fields is nonempty. -/
theorem joinSep_ne_nil (c : Char) (fs : List (List Char)) (h : 1 < fs.length) :
    joinSep c fs ≠ [] := by
  cases fs with
  | nil => simp at h
  | cons f fs' =>
      cases fs' with
      | nil => simp at h
      | cons g gs =>
          show f ++ c :: joinSep c (g :: gs) ≠ []
          simp

/-- Splitting a joined line by its own separator recovers the fields. -/
theorem splitChar_joinSep (c : Char) :
    ∀ fs : List (List Char), fs ≠ [] → (∀ f ∈ fs, c ∉ f) →
      splitChar c (joinSep c fs) = fs := by
  intro fs
  induction fs with
  | nil => intro h _; exact absurd rfl h
  | cons f fs' ih =>
      intro _ h
      cases fs' with
      | nil =>
          show splitChar c f = [f]
          exact splitChar_no c f (h f (List.mem_cons_self _ _))
      | cons g gs =>
          show splitChar c (f ++ c :: joinSep c (g :: gs)) = f :: g :: gs
          rw [splitChar_append c f _ (h f (List.mem_cons_self _ _))]
          rw [ih (by simp) (fun f2 hf2 => h f2 (List.mem_cons_of_mem _ hf2))]

/-- Positional cell extraction over a full-width row is the cell map. -/
theorem range_map_get (row : List (List Char)) :
    (List.range row.length).map
        (fun i => ((row.get? i).elim none toCell : Cell)) = row.map toCell := by
  induction row with
  | nil => rfl
  | cons x xs ih =>
      show (List.range (xs.length + 1)).map
          (fun i => (((x :: xs).get? i).elim none toCell : Cell)) =
        toCell x :: xs.map toCell
      rw [List.range_succ_eq_map, List.map_cons, List.map_map]
      show toCell x ::
          (List.range xs.length).map
            (fun i => ((xs.get? i).elim none toCell : Cell)) =
        toCell x :: xs.map toCell
      rw [ih]

/-- Evaluation of the modelled `read_csv` on a two-line file whose lines
are nonempty and newline-free. -/
theorem parseCsv_lines (sep : Char) (H R : List Char)
    (hHne : H ≠ []) (hRne : R ≠ []) (hnlH : '\n' ∉ H) (hnlR : '\n' ∉ R) :
    parseCsv sep (H ++ '\n' :: R) =
      (let cols := (splitChar sep H).map String.mk
       let rowsF := [splitChar sep R]
       if rowsF.all (fun r => r.length ≤ cols.length) then
         some ⟨cols, rowsF.map (fun r =>
           (List.range cols.length).map (fun i => (r.get? i).elim none toCell))⟩
       else none) := by
  have hfl : (splitChar '\n' (H ++ '\n' :: R)).filter (fun l => l ≠ []) =
      [H, R] := by
    rw [splitChar_append '\n' H R hnlH, splitChar_no '\n' R hnlR]
    simp [List.filter, hHne, hRne]
  simp only [parseCsv]
  rw [hfl]
  rfl

/-- Parsing a sep-built file with a foreign candidate delimiter succeeds
with a single column. -/
theorem parseCsv_onecol (c : Char) (H R : List Char)
    (hH : c ∉ H) (hR : c ∉ R) (hnlH : '\n' ∉ H) (hnlR : '\n' ∉ R)
    (hHne : H ≠ []) (hRne : R ≠ []) :
    parseCsv c (H ++ '\n' :: R) = some (Table.mk [String.mk H] [[toCell R]]) := by
  rw [parseCsv_lines c H R hHne hRne hnlH hnlR,
      splitChar_no c H hH, splitChar_no c R hR]
  rfl

/-- Parsing a sep-built file with its own separator recovers the table. -/
theorem parseCsv_full (sep : Char) (header row : List (List Char))
    (hlen2 : 1 < header.length) (hrow : row.length = header.length)
    (hsepH : ∀ f ∈ header, sep ∉ f) (hsepR : ∀ f ∈ row, sep ∉ f)
    (hnlH : ∀ f ∈ header, ('\n' : Char) ∉ f)
    (hnlR : ∀ f ∈ row, ('\n' : Char) ∉ f)
    (hsep : sep ≠ '\n') :
    parseCsv sep (mkDelim sep header row) =
      some (Table.mk (header.map String.mk) [row.map toCell]) := by
  have hrlen2 : 1 < row.length := by omega
  have hHne := joinSep_ne_nil sep header hlen2
  have hRne := joinSep_ne_nil sep row hrlen2
  have hnlH' : '\n' ∉ joinSep sep header :=
    joinSep_not_mem sep '\n' (Ne.symm hsep) header hnlH
  have hnlR' : '\n' ∉ joinSep sep row :=
    joinSep_not_mem sep '\n' (Ne.symm hsep) row hnlR
  show parseCsv sep (joinSep sep header ++ '\n' :: joinSep sep row) = _
  rw [parseCsv_lines sep _ _ hHne hRne hnlH' hnlR',
      splitChar_joinSep sep header (by intro hh; rw [hh] at hlen2; simp at hlen2)
        hsepH,
      splitChar_joinSep sep row (by intro hh; rw [hh] at hrlen2; simp at hrlen2)
        hsepR]
  show (if [row].all (fun r => r.length ≤ (header.map String.mk).length) then
          some ⟨header.map String.mk, [row].map (fun r =>
            (List.range (header.map String.mk).length).map
              (fun i => (r.get? i).elim none toCell))⟩
        else none) = some (Table.mk (header.map String.mk) [row.map toCell])
  have hcond : [row].all
      (fun r => r.length ≤ (header.map String.mk).length) = true := by
    simp [List.length_map]
    omega
  rw [if_pos hcond]
  refine congrArg some (congrArg (Table.mk (header.map String.mk)) ?_)
  show [(List.range (header.map String.mk).length).map
          (fun i => ((row.get? i).elim none toCell : Cell))] = [row.map toCell]
  rw [List.length_map, ← hrow, range_map_get]

/-- Candidate loop stepping past a candidate that parses to one column. -/
theorem trySeps_cons_small (text : List Char) (c : Char) (rest : List Char)
    (tb : Table) (hp : parseCsv c text = some tb)
    (hlen : ¬ tb.cols.length > 1) :
    trySeps text (c :: rest) = trySeps text rest := by
  show (match parseCsv c text with
        | some tb => if tb.cols.length > 1 then some tb else trySeps text rest
        | none => trySeps text rest) = trySeps text rest
  rw [hp]
  show (if tb.cols.length > 1 then some tb else trySeps text rest) =
    trySeps text rest
  rw [if_neg hlen]

/-- Candidate loop accepting a candidate that yields several columns. -/
theorem trySeps_cons_big (text : List Char) (c : Char) (rest : List Char)
    (tb : Table) (hp : parseCsv c text = some tb)
    (hlen : tb.cols.length > 1) :
    trySeps text (c :: rest) = some tb := by
  show (match parseCsv c text with
        | some tb => if tb.cols.length > 1 then some tb else trySeps text rest
        | none => trySeps text rest) = some tb
  rw [hp]
  show (if tb.cols.length > 1 then some tb else trySeps text rest) = some tb
  rw [if_pos hlen]

/-- Reader outcome when the candidate loop accepts. -/
theorem read_any_csv_of_trySeps (name : String) (t : String) (tb : Table)
    (h : trySeps t.data [',', ';', '\t'] = some tb) :
    read_any ⟨name, .csvText t⟩ = .ok tb := by
  show (match trySeps t.data [',', ';', '\t'] with
        | some tb => Except.ok tb
        | none =>
            match parseCsv ',' t.data with
            | some tb => Except.ok tb
            | none => Except.error ()) = Except.ok tb
  rw [h]

/-- C7.  The reader tries comma, semicolon and tab in that order and
returns the first parse with more than one column, so a comma-, a
semicolon- and a tab-separated rendering of the same header and data row
(fields free of the candidate characters) all read to the identical
table; and when no candidate qualifies, the reader falls back to the
default single-delimiter parse instead of failing outright. -/
theorem delimiter_inference (header row : List (List Char))
    (hlen2 : 1 < header.length) (hrow : row.length = header.length)
    (hclean : ∀ f ∈ header ++ row, ∀ c ∈ ([',', ';', '\t', '\n'] : List Char),
      c ∉ f) :
    (∀ (name : String) (sep : Char), sep ∈ ([',', ';', '\t'] : List Char) →
      read_any ⟨name, .csvText (String.mk (mkDelim sep header row))⟩ =
        .ok (Table.mk (header.map String.mk) [row.map toCell])) ∧
    (∀ (name : String) (text : String),
      trySeps text.data [',', ';', '\t'] = none →
      read_any ⟨name, .csvText text⟩ =
        (match parseCsv ',' text.data with
         | some tb => Except.ok tb
         | none => Except.error ())) := by
  have hH : ∀ c ∈ ([',', ';', '\t', '\n'] : List Char), ∀ f ∈ header, c ∉ f :=
    fun c hc f hf => hclean f (List.mem_append_left _ hf) c hc
  have hR : ∀ c ∈ ([',', ';', '\t', '\n'] : List Char), ∀ f ∈ row, c ∉ f :=
    fun c hc f hf => hclean f (List.mem_append_right _ hf) c hc
  have hrlen2 : 1 < row.length := by omega
  have hfull : ∀ sep ∈ ([',', ';', '\t'] : List Char),
      parseCsv sep (mkDelim sep header row) =
        some (Table.mk (header.map String.mk) [row.map toCell]) := by
    intro sep hsep
    fin_cases hsep <;>
      exact parseCsv_full _ header row hlen2 hrow
        (hH _ (by decide)) (hR _ (by decide)) (hH '\n' (by decide))
        (hR '\n' (by decide)) (by decide)
  have honecol : ∀ sep ∈ ([',', ';', '\t'] : List Char),
      ∀ c ∈ ([',', ';', '\t'] : List Char), c ≠ sep →
      parseCsv c (mkDelim sep header row) =
        some (Table.mk [String.mk (joinSep sep header)]
          [[toCell (joinSep sep row)]]) := by
    intro sep hsep c hc hne
    have hnlsep : ('\n' : Char) ≠ sep := by fin_cases hsep <;> decide
    exact parseCsv_onecol c _ _
      (joinSep_not_mem sep c hne header (hH c (by fin_cases hc <;> decide)))
      (joinSep_not_mem sep c hne row (hR c (by fin_cases hc <;> decide)))
      (joinSep_not_mem sep '\n' hnlsep header (hH '\n' (by decide)))
      (joinSep_not_mem sep '\n' hnlsep row (hR '\n' (by decide)))
      (joinSep_ne_nil sep header hlen2) (joinSep_ne_nil sep row hrlen2)
  have hbig : 1 < (Table.mk (header.map String.mk) [row.map toCell]).cols.length := by
    show 1 < (header.map String.mk).length
    rw [List.length_map]
    exact hlen2
  constructor
  · intro name sep hsep
    fin_cases hsep
    · exact read_any_csv_of_trySeps name _ _
        (trySeps_cons_big _ ',' _ _ (hfull ',' (by decide)) hbig)
    · refine read_any_csv_of_trySeps name _ _ ?_
      rw [trySeps_cons_small _ ',' _ _
            (honecol ';' (by decide) ',' (by decide) (by decide))
            (by show ¬ (1 : Nat) > 1; decide)]
      exact trySeps_cons_big _ ';' _ _ (hfull ';' (by decide)) hbig
    · refine read_any_csv_of_trySeps name _ _ ?_
      rw [trySeps_cons_small _ ',' _ _
            (honecol '\t' (by decide) ',' (by decide) (by decide))
            (by show ¬ (1 : Nat) > 1; decide),
          trySeps_cons_small _ ';' _ _
            (honecol '\t' (by decide) ';' (by decide) (by decide))
            (by show ¬ (1 : Nat) > 1; decide)]
      exact trySeps_cons_big _ '\t' _ _ (hfull '\t' (by decide)) hbig
  · intro name text h
    show (match trySeps text.data [',', ';', '\t'] with
          | some tb => Except.ok tb
          | none =>
              match parseCsv ',' text.data with
              | some tb => Except.ok tb
              | none => Except.error ()) =
      (match parseCsv ',' text.data with
       | some tb => Except.ok tb
       | none => Except.error ())
    rw [h]

/-- Header fields of the 16 required columns, for the C7 witness. -/
def c7Header : List (List Char) := REQUIRED_COLS.map String.data

/-- One data row of 16 fields, for the C7 witness. -/
def c7Row : List (List Char) :=
  (["01/03/2024", "09:30", "Consulta", "Juan", "123", "555", "a@b", "OS",
    "Centro", "Dr", "Eco", "Calle", "Ciudad", "30", "OK", "Si"] :
    List String).map String.data

/-- Witness for C7: the comma, semicolon and tab renderings of the same
16-column one-row table all read to the identical single-row table. -/
theorem delimiter_inference_witness :
    (1 < c7Header.length ∧ c7Row.length = c7Header.length) ∧
    read_any ⟨"a.csv", .csvText (String.mk (mkDelim ',' c7Header c7Row))⟩ =
      .ok (Table.mk (c7Header.map String.mk) [c7Row.map toCell]) ∧
    read_any ⟨"b.csv", .csvText (String.mk (mkDelim ';' c7Header c7Row))⟩ =
      .ok (Table.mk (c7Header.map String.mk) [c7Row.map toCell]) ∧
    read_any ⟨"c.csv", .csvText (String.mk (mkDelim '\t' c7Header c7Row))⟩ =
      .ok (Table.mk (c7Header.map String.mk) [c7Row.map toCell]) := by
  have h := delimiter_inference c7Header c7Row (by decide) (by decide)
    (by decide)
  exact ⟨⟨by decide, by decide⟩, h.1 "a.csv" ',' (by decide),
    h.1 "b.csv" ';' (by decide), h.1 "c.csv" '\t' (by decide)⟩
